import Mathlib

/-!
Verification of the DynamoDB expression builder (`src/Expression.js`) of
dynamodb-onetable.  The source is a single class, `Expression`, that turns a
logical operation (put, get, find, scan, update, delete) over a modeled schema
into a DynamoDB request object.  Everything below is a shallow embedding of
that file: JavaScript values are modeled by the inductive `JsVal`, objects by
ordered association lists, thrown exceptions by `Except.error`, and the
mutable `Expression` instance by the record `ExprState` threaded through the
translated methods.  Each translated definition cites the source lines it
embeds.
-/

namespace OneTable

/-- Model of a JavaScript runtime value, as used by Expression.js: `undefined`,
`null`, booleans, numbers (integers suffice for this code), strings, arrays
and plain objects.  Objects are ordered association lists, matching the
insertion-order iteration of `Object.entries` for the string keys this code
uses. -/
inductive JsVal where
  | undefined : JsVal
  | null : JsVal
  | bool (b : Bool) : JsVal
  | num (n : Int) : JsVal
  | str (s : String) : JsVal
  | arr (elems : List JsVal) : JsVal
  | obj (entries : List (String × JsVal)) : JsVal

/-- A JavaScript object: ordered key/value entries. -/
abbrev JsObj := List (String × JsVal)

/-- Property read `o[k]`: first entry with the key, if any (keys are unique in
objects built by this model's `assocSet`). -/
def assocGet {α : Type} : List (String × α) → String → Option α
  | [], _ => none
  | (k, v) :: rest, n => if k = n then some v else assocGet rest n

/-- Property write `o[k] = v`: JavaScript updates an existing key in place and
appends a new key at the end of the insertion order. -/
def assocSet {α : Type} : List (String × α) → String → α → List (String × α)
  | [], n, v => [(n, v)]
  | (k, w) :: rest, n, v =>
    if k = n then (n, v) :: rest else (k, w) :: assocSet rest n v

/-- The JavaScript test `typeof x == 'object'`, which is true for `null`,
arrays and plain objects. -/
def jsTypeofObject : JsVal → Bool
  | .null => true
  | .arr _ => true
  | .obj _ => true
  | _ => false

/-- The JavaScript strict test `x === undefined`. -/
def isUndef : JsVal → Bool
  | .undefined => true
  | _ => false

/-- The JavaScript strict test `x === null`. -/
def isNull : JsVal → Bool
  | .null => true
  | _ => false

/-- The JavaScript strict test `x === ''`. -/
def isEmptyStr : JsVal → Bool
  | .str "" => true
  | _ => false

/-- The JavaScript loose test `x == null`, true exactly for `null` and
`undefined`. -/
def jsLooseNull : JsVal → Bool
  | .null => true
  | .undefined => true
  | _ => false

/-- Loose `o[k] == null` where the property may be absent (an absent property
reads as `undefined`). -/
def jsLooseNullOpt : Option JsVal → Bool
  | none => true
  | some v => jsLooseNull v

/-- The JavaScript test `o[k] !== undefined` on a possibly absent property. -/
def jsDefinedOpt : Option JsVal → Bool
  | none => false
  | some .undefined => false
  | some _ => true

/-- JavaScript truthiness of a value. -/
def jsTruthy : JsVal → Bool
  | .undefined => false
  | .null => false
  | .bool b => b
  | .num n => n ≠ 0
  | .str s => s ≠ ""
  | .arr _ => true
  | .obj _ => true

mutual

/-- String coercion of a JavaScript value, as performed when a substitution
callback's result is spliced into a string by `String.prototype.replace`. -/
def jsToDisplayString : JsVal → String
  | .undefined => "undefined"
  | .null => "null"
  | .bool b => if b then "true" else "false"
  | .num n => toString n
  | .str s => s
  | .arr xs => jsArrToDisplayString xs
  | .obj _ => "[object Object]"

/-- Array-to-string coercion: elements joined by commas, with `null` and
`undefined` elements rendering as empty. -/
def jsArrToDisplayString : List JsVal → String
  | [] => ""
  | v :: rest =>
    (if jsLooseNull v then "" else jsToDisplayString v)
      ++ (if rest.isEmpty then "" else "," ++ jsArrToDisplayString rest)

end

/-- A schema field definition as consumed by Expression.js: logical `name`,
wire attribute name (`field.attribute` in the source; `attribute` is a Lean
keyword so the projection is named `attr`), `isIndexed` flag, `uuid`
generation flag, `nulls` allowance, and the optional `value` template
string. -/
structure Field where
  name : String
  attr : String
  isIndexed : Bool := false
  uuid : Bool := false
  nulls : Bool := false
  value : Option String := none

/-- An index: hash attribute and optional sort attribute. -/
structure Index where
  hash : String
  sort : Option String := none

/-- The model's index table: the primary index plus named secondary indexes
(`indexes.primary` and `indexes[name]` in the source). -/
structure Indexes where
  primary : Index
  secondary : List (String × Index) := []

/-- The table collaborator: ambient context object and identifier generator
(`this.table.context`, `this.table.uuid()`).  The generator is modeled as a
function of a per-translation call counter. -/
structure Table where
  context : JsObj := []
  uuid : Nat → String := fun n => "uuid-" ++ toString n

/-- The model collaborator: table, ordered field map, logical-name to
attribute map, index table, composite key delimiter and wire table name. -/
structure Model where
  table : Table := {}
  fields : List (String × Field)
  map : List (String × String) := []
  indexes : Indexes
  delimiter : String := ":"
  tableName : String := "TestTable"

/-- The caller-supplied `params` bag.  `exists`, `where` and `return` are
reserved words in Lean and are carried as `existsCond`, `whereClause` and
`returnMode`; everything else keeps the source name.  The `preFormat` /
`postFormat` hooks are modeled as presence flags: see `prepare` for how the
source behaves when they are supplied. -/
structure Params where
  execute : Option Bool := none
  index : Option String := none
  existsCond : Option Bool := none
  type : Option String := none
  whereClause : Option String := none
  add : Option JsObj := none
  remove : Option JsVal := none
  delete : Option JsObj := none
  batch : Bool := false
  metrics : Bool := false
  capacity : Option String := none
  returnMode : Option String := none
  consistent : Bool := false
  limit : Option Int := none
  reverse : Bool := false
  start : Option JsObj := none
  high : Bool := false
  preFormat : Bool := false
  postFormat : Bool := false

/-- Truthiness of `params.add` (an object, hence truthy whenever present). -/
def addTruthy (p : Params) : Bool := p.add.isSome

/-- Truthiness of `params.remove` (an arbitrary value in the source). -/
def removeTruthy (p : Params) : Bool :=
  match p.remove with
  | some v => jsTruthy v
  | none => false

/-- Truthiness of `params.delete`. -/
def deleteTruthy (p : Params) : Bool := p.delete.isSome

/-- Truthiness of `params.where`. -/
def whereTruthy (p : Params) : Bool :=
  match p.whereClause with
  | some w => w ≠ ""
  | none => false

/-- JavaScript `a || b` for an optional string option (absent or empty falls
back to the default), as in `params.capacity || 'TOTAL'`. -/
def orDefault (o : Option String) (d : String) : String :=
  match o with
  | some s => if s ≠ "" then s else d
  | none => d

/-- The mutable `Expression` instance (constructor, Expression.js:12-52):
fragment lists, the literal key map, the two placeholder maps, the resolved
attribute map, the two token counters and the fallback flag, plus the
construction-time inputs it retains. -/
structure ExprState where
  model : Model
  op : String
  properties : JsObj
  params : Params
  conditions : List String := []
  fields : List String := []
  filters : List String := []
  key : JsObj := []
  keys : List String := []
  updates : List String := []
  names : List (String × String) := []
  values : JsObj := []
  fieldValues : JsObj := []
  nindex : Nat := 0
  vindex : Nat := 0
  fallback : Bool := false
  execute : Bool := true
  delimiter : String := ":"
  tableName : String := "TestTable"
  index : Index
  hash : String
  sort : Option String := none
  uuidCounter : Nat := 0

/-- A name placeholder token `#_n`. -/
def nameToken (n : Nat) : String := "#_" ++ toString n

/-- A value placeholder token `:_n`. -/
def valueToken (n : Nat) : String := ":_" ++ toString n

/-! String scanners.  Expression.js substitutes with the global regular
expressions `\$\{(.*?)\}` (a dollar-brace variable reference, non-greedy up
to the first closing brace) and `\{(.*?)\}` (a brace value reference).  They
are modeled by character-list scanners.  The recursive scanners take a fuel
argument so that recursion is structural; every step consumes at least one
input character, so fuel equal to the input length (the wrappers pass
length + 1) reproduces the regex semantics on all inputs. -/

/-- Scan the characters of a non-greedy `(.*?)` group up to the first closing
brace: returns the token and the remaining input, or `none` when no closing
brace remains (in which case the regex has no further match). -/
def takeTok : List Char → Option (List Char × List Char)
  | [] => none
  | c :: rest =>
    if c = '}' then some ([], rest)
    else (takeTok rest).map (fun p => (c :: p.1, p.2))

/-- The test `s.indexOf('${') >= 0`: does the character list contain a
dollar-brace opener? -/
def containsVarOpen : List Char → Bool
  | [] => false
  | [_] => false
  | c :: c2 :: rest => (c = '$' && c2 = '{') || containsVarOpen (c2 :: rest)

/-- One global pass of `s.replace(/\$\{(.*?)\}/g, ...)` against a single
context object (Expression.js:382-388): each variable reference whose name is
defined in the context (`context[varName] !== undefined`) is replaced by the
context value coerced to a string; an unresolved reference is left in place.
Replacement text is not rescanned, matching `replace` semantics. -/
def replaceVarsAux (ctx : JsObj) : Nat → List Char → List Char
  | 0, s => s
  | _ + 1, [] => []
  | fuel + 1, c :: rest =>
    if c = '$' then
      match rest with
      | '{' :: rest2 =>
        match takeTok rest2 with
        | some (tok, rest') =>
          let found := assocGet ctx (String.mk tok)
          (if jsDefinedOpt found then (jsToDisplayString (found.getD .undefined)).toList
           else '$' :: '{' :: (tok ++ ('}' :: [])))
            ++ replaceVarsAux ctx fuel rest'
        | none => c :: rest
      | _ => c :: replaceVarsAux ctx fuel rest
    else c :: replaceVarsAux ctx fuel rest

/-- Wrapper allocating sufficient fuel for `replaceVarsAux`. -/
def replaceVars (ctx : JsObj) (s : List Char) : List Char :=
  replaceVarsAux ctx (s.length + 1) s

/-- One global pass of `s.replace(/\$\{(.*?)\}/g, '')`: strip every variable
reference (Expression.js:396). -/
def stripVarsAux : Nat → List Char → List Char
  | 0, s => s
  | _ + 1, [] => []
  | fuel + 1, c :: rest =>
    if c = '$' then
      match rest with
      | '{' :: rest2 =>
        match takeTok rest2 with
        | some (_, rest') => stripVarsAux fuel rest'
        | none => c :: rest
      | _ => c :: stripVarsAux fuel rest
    else c :: stripVarsAux fuel rest

/-- Wrapper allocating sufficient fuel for `stripVarsAux`. -/
def stripVars (s : List Char) : List Char :=
  stripVarsAux (s.length + 1) s

/-- Count how many consecutive copies of `pat` occur at the head of `s`
(used on reversed lists to count trailing delimiter copies). -/
def countLeadingReps (pat : List Char) : Nat → List Char → Nat
  | 0, _ => 0
  | fuel + 1, s =>
    if pat ≠ [] ∧ pat.isPrefixOf s then
      countLeadingReps pat fuel (s.drop pat.length) + 1
    else 0

/-- The trim `s.replace(RegExp(sep + sep + '+$', 'g'), '')`
(Expression.js:398): a trailing run of two or more copies of the delimiter is
removed entirely; a single trailing copy is kept. -/
def trimTrailingSeps (sep : List Char) (s : List Char) : List Char :=
  let rev := s.reverse
  let k := countLeadingReps sep.reverse (rev.length + 1) rev
  if 2 ≤ k then (rev.drop (k * sep.length)).reverse else s

/-- The context-substitution loop of `template` (Expression.js:378-389): for
each context in order, stop if no variable reference remains, else run one
global replacement pass drawing values from that context. -/
def substContexts : List JsObj → List Char → List Char
  | [], s => s
  | c :: rest, s =>
    if containsVarOpen s then substContexts rest (replaceVars c s) else s

/-- JavaScript array-assignment semantics for the rebuilt array: the array
length is one past the last assigned index (trailing skipped entries do not
extend it), and an interior hole reads back as `undefined`. -/
def squashHoles (l : List (Option JsVal)) : List JsVal :=
  ((l.reverse.dropWhile Option.isNone).reverse).map (fun o => o.getD .undefined)

mutual

/-- Translation of `removeEmptyStrings(field, obj)` (Expression.js:409-426):
recursively rebuild a structured value.  Note that in JavaScript
`typeof null == 'object'`, so a null entry is handled by the recursive branch
(which returns it unchanged); the later `value === null` test is
unreachable. -/
def removeEmptyStrings (field : Field) (obj : JsVal) : JsVal :=
  match obj with
  | .obj entries => .obj (rmObjEntries field entries)
  | .arr elems => .arr (squashHoles (rmArrElems field elems))
  | v => v

/-- The `Object.entries` loop of `removeEmptyStrings` over a plain object:
recurse on entries of object type (including `null`), drop empty-string
entries, keep the rest.  The `value === null` branch of the source is
unreachable (nulls take the object branch) and is rendered here in the same
dead position. -/
def rmObjEntries (field : Field) : List (String × JsVal) → List (String × JsVal)
  | [] => []
  | (k, v) :: rest =>
    if jsTypeofObject v then (k, removeEmptyStrings field v) :: rmObjEntries field rest
    else if isNull v ∧ ¬field.nulls then rmObjEntries field rest
    else if ¬isEmptyStr v then (k, v) :: rmObjEntries field rest
    else rmObjEntries field rest

/-- The same loop over an array: the result is built by assigning kept
elements at their original index, so a dropped element leaves a hole
(`none`); `squashHoles` then reproduces JavaScript array-assignment
semantics. -/
def rmArrElems (field : Field) : List JsVal → List (Option JsVal)
  | [] => []
  | v :: rest =>
    (if jsTypeofObject v then some (removeEmptyStrings field v)
     else if isNull v ∧ ¬field.nulls then none
     else if ¬isEmptyStr v then some v
     else none) :: rmArrElems field rest

end

/-- Translation of `template(field, properties, ...contexts)`
(Expression.js:370-407).  The one call site (line 62) passes the ambient
table context as the rest argument, and the method then executes
`contexts.push(properties)`, so the ordered context list it consults is
`[contextArg, properties]` — the ambient table context first and the
operation properties last.  With no template, the field's logical name is
looked up in that order and the first defined value returned.  With a
template, variable references are substituted from each context in order;
if unresolved references remain and the field is the active sort attribute
on a find without a where clause, references are stripped, a trailing run of
two or more delimiter copies is trimmed, and a non-empty remainder becomes a
begins directive; otherwise the field resolves to `undefined`. -/
def template (sort : Option String) (op : String) (params : Params)
    (delimiter : String) (field : Field) (properties contextArg : JsObj) : JsVal :=
  let contexts : List JsObj := [contextArg, properties]
  match field.value with
  | none =>
    match contexts.find? (fun c => jsDefinedOpt (assocGet c field.name)) with
    | some c => (assocGet c field.name).getD .undefined
    | none => .undefined
  | some tmpl =>
    let s := substContexts contexts tmpl.toList
    if containsVarOpen s then
      if sort = some field.attr then
        if op = "find" ∧ ¬whereTruthy params then
          let s2 := trimTrailingSeps delimiter.toList (stripVars s)
          if s2 ≠ [] then .obj [("begins", .str (String.mk s2))]
          else .undefined
        else .undefined
      else .undefined
    else .str (String.mk s)

/-- Literal parsing for a `{value}` reference in a where clause
(Expression.js:165-178): a bare digit sequence becomes a number, a
double-quoted string is unquoted, `true`/`false` become booleans, anything
else is a raw string. -/
def parseWhereValue (tok : List Char) : JsVal :=
  if tok ≠ [] ∧ tok.all Char.isDigit then
    .num (Int.ofNat (tok.foldl (fun acc c => acc * 10 + (c.toNat - '0'.toNat)) 0))
  else if 2 ≤ tok.length ∧ tok.head? = some '"' ∧ tok.getLast? = some '"' then
    .str (String.mk (tok.drop 1).dropLast)
  else if tok = ['t', 'r', 'u', 'e'] then .bool true
  else if tok = ['f', 'a', 'l', 's', 'e'] then .bool false
  else .str (String.mk tok)

/-- The first `makeConditions` pass (Expression.js:160-164): replace each
dollar-brace variable reference with a freshly allocated name placeholder
bound to the schema-mapped attribute (`this.model.map[varName] || varName`),
advancing the name counter. -/
def nameSub (modelMap : List (String × String)) :
    Nat → List Char → List (String × String) → Nat →
    List Char × List (String × String) × Nat
  | 0, s, names, n => (s, names, n)
  | _ + 1, [], names, n => ([], names, n)
  | fuel + 1, c :: rest, names, n =>
    if c = '$' then
      match rest with
      | '{' :: rest2 =>
        match takeTok rest2 with
        | some (tok, rest') =>
          let varName := String.mk tok
          let mapped :=
            match assocGet modelMap varName with
            | some a => if a ≠ "" then a else varName
            | none => varName
          let out := nameSub modelMap fuel rest' (assocSet names (nameToken n) mapped) (n + 1)
          ((nameToken n).toList ++ out.1, out.2.1, out.2.2)
        | none => (c :: rest, names, n)
      | _ =>
        let out := nameSub modelMap fuel rest names n
        (c :: out.1, out.2.1, out.2.2)
    else
      let out := nameSub modelMap fuel rest names n
      (c :: out.1, out.2.1, out.2.2)

/-- The second `makeConditions` pass (Expression.js:165-179): replace each
brace value reference with a freshly allocated value placeholder bound to
the parsed literal, advancing the value counter. -/
def valueSub : Nat → List Char → JsObj → Nat → List Char × JsObj × Nat
  | 0, s, values, v => (s, values, v)
  | _ + 1, [], values, v => ([], values, v)
  | fuel + 1, c :: rest, values, v =>
    if c = '{' then
      match takeTok rest with
      | some (tok, rest') =>
        let out := valueSub fuel rest' (assocSet values (valueToken v) (parseWhereValue tok)) (v + 1)
        ((valueToken v).toList ++ out.1, out.2.1, out.2.2)
      | none => (c :: rest, values, v)
    else
      let out := valueSub fuel rest values v
      (c :: out.1, out.2.1, out.2.2)

/-- Property read `v[i]` with a numeric index (`vars[0]`, `vars[1]` in
`addKeys`): an array yields its element, an object its entry under the
decimal key, a string its one-character slice, anything else `undefined`. -/
def jsIndex (v : JsVal) (i : Nat) : JsVal :=
  match v with
  | .arr xs => (xs.get? i).getD .undefined
  | .obj entries => (assocGet entries (toString i)).getD .undefined
  | .str s => if i < s.length then .str (String.mk ((s.toList.drop i).take 1)) else .undefined
  | _ => .undefined -- numbers, booleans and the like have no indexed properties

/-- Translation of `makeConditions(where)` (Expression.js:157-183): run the
variable pass and then the value pass over the clause, returning the
substituted string and the state with the updated placeholder maps and
counters. -/
def makeConditions (st : ExprState) (whereStr : String) : String × ExprState :=
  let l := whereStr.toList
  let p1 := nameSub st.model.map (l.length + 1) l st.names st.nindex
  let p2 := valueSub (p1.1.length + 1) p1.1 st.values st.vindex
  (String.mk p2.1,
   { st with names := p1.2.1, nindex := p1.2.2, values := p2.2.1, vindex := p2.2.2 })

/-- Translation of `addFilter(attribute, value)` (Expression.js:197-204): one
equality fragment consuming one name and one value placeholder. -/
def addFilter (attrName : String) (value : JsVal) (st : ExprState) : ExprState :=
  { st with
    filters := st.filters ++ [nameToken st.nindex ++ " = " ++ valueToken st.vindex],
    names := assocSet st.names (nameToken st.nindex) attrName,
    values := assocSet st.values (valueToken st.vindex) value,
    nindex := st.nindex + 1,
    vindex := st.vindex + 1 }

/-- Translation of `addFilters()` (Expression.js:188-192): push the compiled
where clause as a filter when `params.where` is supplied. -/
def addFilters (st : ExprState) : ExprState :=
  if whereTruthy st.params then
    let mc := makeConditions st (st.params.whereClause.getD "")
    { mc.2 with filters := mc.2.filters ++ [mc.1] }
  else st

/-- Translation of `addKey(field, value)` (Expression.js:209-211). -/
def addKey (field : Field) (value : JsVal) (st : ExprState) : ExprState :=
  { st with key := assocSet st.key field.attr value }

/-- Translation of `addKeys(field, value)` (Expression.js:216-239).  For a
structured value, `Object.entries(value)[0]` is destructured: on `null` or an
empty object/array this raises a TypeError.  Only the begins/begins_with and
between directives emit a key fragment; any other directive falls through
silently.  The name placeholder on line 236 is allocated outside the
directive dispatch, so it is bound in every non-error case. -/
def addKeys (field : Field) (value : JsVal) (st : ExprState) : Except String ExprState :=
  let finish : ExprState → ExprState := fun s =>
    { s with names := assocSet s.names (nameToken s.nindex) field.attr,
             nindex := s.nindex + 1 }
  let onEntries : Option (String × JsVal) → Except String ExprState := fun entry =>
    match entry with
    | none => .error "TypeError: cannot destructure first entry"
    | some (action, vars) =>
      let s :=
        if action = "begins" ∨ action = "begins_with" then
          { st with
            keys := st.keys ++
              ["begins_with(" ++ nameToken st.nindex ++ ", " ++ valueToken st.vindex ++ ")"],
            values := assocSet st.values (valueToken st.vindex) vars,
            vindex := st.vindex + 1 }
        else if action = "between" then
          { st with
            keys := st.keys ++
              ["between(" ++ nameToken st.nindex ++ ", " ++ valueToken st.vindex ++ ", "
                ++ valueToken (st.vindex + 1) ++ ")"],
            values := assocSet
              (assocSet st.values (valueToken st.vindex) (jsIndex vars 0))
              (valueToken (st.vindex + 1)) (jsIndex vars 1),
            vindex := st.vindex + 2 }
        else st
      .ok (finish s)
  match value with
  | .null => .error "TypeError: Cannot convert undefined or null to object"
  | .obj entries => onEntries entries.head?
  | .arr elems => onEntries (elems.head?.map (fun x => ("0", x)))
  | v =>
    .ok (finish
      { st with
        keys := st.keys ++ [nameToken st.nindex ++ " = " ++ valueToken st.vindex],
        values := assocSet st.values (valueToken st.vindex) v,
        vindex := st.vindex + 1 })

/-- Translation of `addUpdate(field, value)` (Expression.js:241-251): a
plain set-style update fragment, suppressed for indexed fields and when a
bulk add/remove/delete map is supplied. -/
def addUpdate (field : Field) (value : JsVal) (st : ExprState) : ExprState :=
  if field.isIndexed ∨ addTruthy st.params ∨ removeTruthy st.params ∨ deleteTruthy st.params then
    st
  else
    { st with
      updates := st.updates ++ [nameToken st.nindex ++ " = " ++ valueToken st.vindex],
      names := assocSet st.names (nameToken st.nindex) field.attr,
      values := assocSet st.values (valueToken st.vindex) value,
      nindex := st.nindex + 1,
      vindex := st.vindex + 1 }

/-- The `Object.entries(params.add)` / `Object.entries(params.delete)` loop of
`addUpdates` (Expression.js:256-260, 272-276): each pair emits a
space-separated `name value` fragment with fresh placeholders. -/
def addUpdatePairs : List (String × JsVal) → ExprState → ExprState
  | [], st => st
  | (k, v) :: rest, st =>
    addUpdatePairs rest
      { st with
        updates := st.updates ++ [nameToken st.nindex ++ " " ++ valueToken st.vindex],
        names := assocSet st.names (nameToken st.nindex) k,
        values := assocSet st.values (valueToken st.vindex) v,
        nindex := st.nindex + 1,
        vindex := st.vindex + 1 }

/-- Translation of `addUpdates()` (Expression.js:253-280).  The remove branch
iterates `for (let fields of params.remove)` but the loop body assigns
`names[...] = key`, and `key` is not bound anywhere in that scope (the
add/delete branches bind their own loop-local `key`): under ES-module strict
evaluation the first iteration throws a ReferenceError, which aborts the
whole translation.  A non-array `params.remove` is first wrapped in a
singleton array (line 263-265). -/
def addUpdates (st : ExprState) : Except String ExprState :=
  if addTruthy st.params then
    .ok (addUpdatePairs (st.params.add.getD []) st)
  else if removeTruthy st.params then
    let removeList : List JsVal :=
      match st.params.remove.getD .undefined with
      | .arr xs => xs
      | v => [v]
    match removeList with
    | [] => .ok st
    | _ :: _ => .error "ReferenceError: key is not defined"
  else if deleteTruthy st.params then
    .ok (addUpdatePairs (st.params.delete.getD []) st)
  else .ok st

/-- The sort attribute as spliced into a JavaScript template string: an
absent sort renders as the text `undefined`. -/
def sortText (st : ExprState) : String :=
  match st.index.sort with
  | some s => s
  | none => "undefined"

/-- The existence preconditions of `addConditions` (Expression.js:132-140). -/
def condExists (st : ExprState) : ExprState :=
  if st.params.existsCond = some true then
    { st with conditions := st.conditions ++
        ["attribute_exists(" ++ st.index.hash ++ ")",
         "attribute_exists(" ++ sortText st ++ ")"] }
  else if st.params.existsCond = some false then
    { st with conditions := st.conditions ++
        ["attribute_not_exists(" ++ st.index.hash ++ ")",
         "attribute_not_exists(" ++ sortText st ++ ")"] }
  else st

/-- The type precondition of `addConditions` (Expression.js:141-143). -/
def condType (st : ExprState) : ExprState :=
  match st.params.type with
  | some t =>
    if t ≠ "" then
      { st with conditions := st.conditions ++
          ["attribute_type(" ++ sortText st ++ ", " ++ t ++ ")"] }
    else st
  | none => st

/-- The where clause as a condition for delete/update
(Expression.js:149-151). -/
def condWhere (op : String) (st : ExprState) : ExprState :=
  if whereTruthy st.params ∧ (op = "delete" ∨ op = "update") then
    let mc := makeConditions st (st.params.whereClause.getD "")
    { mc.2 with conditions := mc.2.conditions ++ [mc.1] }
  else st

/-- Translation of `addConditions(op)` (Expression.js:128-152): existence
preconditions, type precondition, the bulk update expressions for update,
then the where clause.  The attribute names are spliced with JavaScript
template strings, so an absent sort attribute renders as the text
`undefined` (see `sortText`). -/
def addConditions (op : String) (st : ExprState) : Except String ExprState :=
  let st2 := condType (condExists st)
  let afterUpdates : Except String ExprState :=
    if op = "update" ∧ (addTruthy st2.params ∨ removeTruthy st2.params ∨ deleteTruthy st2.params) then
      addUpdates st2
    else .ok st2
  match afterUpdates with
  | .error e => .error e
  | .ok st3 => .ok (condWhere op st3)

/-- The routing part of `add` (Expression.js:101-113): an indexed field goes
into the key conditions (find) or the literal key map (delete/get/update); a
non-key field goes into the filters (find/scan).  Note `addPayload` runs on
the routed state but tests the same unchanged `op`. -/
def addRoute (field : Field) (value : JsVal) (st : ExprState) : Except String ExprState :=
  if field.isIndexed then
    if field.attr = st.hash ∨ st.sort = some field.attr then
      if st.op = "find" then addKeys field value st
      else if (st.op = "delete" ∨ st.op = "get" ∨ st.op = "update") ∧ field.isIndexed then
        .ok (addKey field value st)
      else .ok st
    else .ok st
  else if st.op = "find" ∨ st.op = "scan" then .ok (addFilter field.attr value st)
  else .ok st

/-- The payload part of `add` (Expression.js:114-120): the item map for put,
a set-style update fragment for update. -/
def addPayload (field : Field) (value : JsVal) (st : ExprState) : ExprState :=
  if st.op = "delete" ∨ st.op = "put" ∨ st.op = "update" then
    if st.op = "put" then { st with values := assocSet st.values field.attr value }
    else if st.op = "update" then addUpdate field value st
    else st
  else st

/-- Translation of `add(field, value)` (Expression.js:99-122): route the
field (`addRoute`), write the payload (`addPayload`), and always record the
resolved value in the resolved attribute map. -/
def add (field : Field) (value : JsVal) (st : ExprState) : Except String ExprState :=
  match addRoute field value st with
  | .error e => .error e
  | .ok st1 =>
    let st2 := addPayload field value st1
    .ok { st2 with fieldValues := assocSet st2.fieldValues field.attr value }

/-- Outcome of one iteration of the `parseFields` loop body: `halt` models the
`return` that aborts `parseFields` (the high-level sort fallback), `skip`
models `continue`, and `next` carries the state after `add`. -/
inductive StepRes where
  | halt (s : ExprState)
  | skip (s : ExprState)
  | next (s : ExprState)

/-- Lift the result of `add` into a `next` step, propagating a thrown
exception. -/
def mapNext : Except String ExprState → Except String StepRes
  | .error e => .error e
  | .ok s => .ok (.next s)

/-- One iteration of the `parseFields` loop body (Expression.js:62-76):
resolve the field through `template`; an undefined/null/empty value is
replaced by a generated identifier (uuid fields on put), triggers the
high-level sort fallback (`field.name == this.sort && params.high`), or is
skipped when undefined or an unallowed null; a structured value is first
sanitized; whatever value survives is routed through `add`. -/
def parseField (field : Field) (st : ExprState) : Except String StepRes :=
  let value := template st.sort st.op st.params st.delimiter field st.properties
    st.model.table.context
  if isUndef value ∨ isNull value ∨ isEmptyStr value then
    if field.uuid ∧ st.op = "put" then
      mapNext (add field (.str (st.model.table.uuid st.uuidCounter))
        { st with uuidCounter := st.uuidCounter + 1 })
    else if st.sort = some field.name ∧ st.params.high then
      .ok (.halt { st with fallback := true })
    else if isUndef value ∨ (isNull value ∧ ¬field.nulls) then
      .ok (.skip st)
    else mapNext (add field value st)
  else if jsTypeofObject value then
    mapNext (add field (removeEmptyStrings field value) st)
  else mapNext (add field value st)

/-- Outcome of the whole `parseFields` loop: `early` models a `return` that
skipped the post-loop processing, `done` a normally completed loop. -/
inductive LoopRes where
  | early (s : ExprState)
  | done (s : ExprState)

/-- The `for (let [fieldName, field] of Object.entries(fields))` loop of
`parseFields` (Expression.js:61-78), including the `if (this.fallback)
return` check that follows each `add`. -/
def parseLoop : List (String × Field) → ExprState → Except String LoopRes
  | [], st => .ok (.done st)
  | (_, f) :: rest, st =>
    match parseField f st with
    | .error e => .error e
    | .ok (.halt s) => .ok (.early s)
    | .ok (.skip s) => parseLoop rest s
    | .ok (.next s) => if s.fallback then .ok (.early s) else parseLoop rest s

/-- The ad-hoc scan filter loop (Expression.js:87-93): for scan, every
caller-supplied property that is not a modeled field and not loosely null
becomes an equality filter and is recorded in the resolved map. -/
def scanExtras (modelFields : List (String × Field)) :
    List (String × JsVal) → ExprState → ExprState
  | [], st => st
  | (name, value) :: rest, st =>
    if (assocGet modelFields name).isSome ∨ jsLooseNull value then
      scanExtras modelFields rest st
    else
      let st1 := addFilter name value st
      scanExtras modelFields rest
        { st1 with fieldValues := assocSet st1.fieldValues name value }

/-- Translation of `parseFields(fields, properties)` (Expression.js:59-94):
run the field loop; when it completes, throw `dynamo: Empty primary hash
key` if a non-scan operation resolved no value for the active hash
attribute, then add conditions (delete/put/update) or filters (find/scan),
and for scan the ad-hoc property filters. -/
def parseFields (st : ExprState) : Except String ExprState :=
  match parseLoop st.model.fields st with
  | .error e => .error e
  | .ok (.early s) => .ok s
  | .ok (.done s) =>
    if s.op ≠ "scan" ∧ jsLooseNullOpt (assocGet s.fieldValues s.hash) then
      .error "dynamo: Empty primary hash key"
    else
      let step2 : Except String ExprState :=
        if s.op = "delete" ∨ s.op = "put" ∨ s.op = "update" then addConditions s.op s
        else if s.op = "find" ∨ s.op = "scan" then .ok (addFilters s)
        else .ok s
      match step2 with
      | .error e => .error e
      | .ok s2 =>
        .ok (if s2.op = "scan" then scanExtras s2.model.fields s2.properties s2 else s2)

/-- Translation of `selectIndex(indexes, params)` (Expression.js:282-295):
the primary index unless a non-primary index is named; naming a secondary
index on an operation other than find/scan sets the fallback flag.  A name
that misses the index table yields `none` (the constructor then dereferences
`undefined`). -/
def selectIndex (indexes : Indexes) (op : String) (params : Params) :
    Option Index × Bool :=
  match params.index with
  | none => (some indexes.primary, false)
  | some ix =>
    if ix = "" then (some indexes.primary, false)
    else if ix = "primary" then (some indexes.primary, false)
    else (assocGet indexes.secondary ix, op ≠ "find" ∧ op ≠ "scan")

/-- Translation of the `Expression` constructor (Expression.js:12-52): record
the inputs, select the index, and unless the fallback flag was set run
`parseFields`.  Dereferencing a missing named index (`this.index.hash`)
throws a TypeError. -/
def mkExpression (model : Model) (op : String) (properties : JsObj)
    (params : Params) : Except String ExprState :=
  match selectIndex model.indexes op params with
  | (none, _) => .error "TypeError: Cannot read properties of undefined"
  | (some index, fb) =>
    let st : ExprState :=
      { model := model, op := op, properties := properties, params := params,
        fallback := fb, execute := params.execute ≠ some false,
        delimiter := model.delimiter, tableName := model.tableName,
        index := index, hash := index.hash, sort := index.sort }
    if fb then .ok st else parseFields st

/-- Translation of `and(terms)` (Expression.js:432-437): one fragment is used
verbatim, several are parenthesized and joined with and. -/
def andTerms (terms : List String) : String :=
  if terms.length = 1 then String.join terms
  else String.intercalate " and " (terms.map (fun t => "(" ++ t ++ ")"))

/-- Translation of `getAction(params)` (Expression.js:439-448). -/
def getAction (params : Params) : String :=
  if addTruthy params then "add"
  else if removeTruthy params then "remove"
  else if deleteTruthy params then "delete"
  else "set"

/-- The loose test `key == null` applied to `this.key`.  The constructor
initializes `this.key` to `{}` and the field is only ever index-assigned, so
it always holds an object, and an object is never loosely equal to null:
the test is identically false.  It is kept as a definition so `prepare`
retains the source's guards verbatim. -/
def jsObjEqNull (_key : JsObj) : Bool := false

/-- The initial argument object literal of `prepare` (Expression.js:317-324):
the four expression strings and the two placeholder maps, each `undefined`
when its fragment list is empty.  Both placeholder maps are gated on the
name-placeholder count (`Object.keys(names).length`).  Entries later pruned
as loosely null are kept here as `undefined`, matching the JavaScript object
literal before `Object.fromEntries` filtering. -/
def baseArgs (st : ExprState) : JsObj :=
  [("ConditionExpression",
     if st.conditions.length ≠ 0 then .str (andTerms st.conditions) else .undefined),
   ("ExpressionAttributeNames",
     if st.names.length > 0 then .obj (st.names.map (fun kv => (kv.1, JsVal.str kv.2)))
     else .undefined),
   ("ExpressionAttributeValues",
     if st.names.length > 0 then .obj st.values else .undefined),
   ("FilterExpression",
     if st.filters.length ≠ 0 then .str (andTerms st.filters) else .undefined),
   ("KeyConditionExpression",
     if st.keys.length ≠ 0 then .str (String.intercalate " and " st.keys) else .undefined),
   ("ProjectionExpression",
     if st.fields.length ≠ 0 then .str (String.intercalate ", " st.fields) else .undefined)]

/-- Assignment of `TableName` unless batch mode (Expression.js:325-327). -/
def argsTableName (st : ExprState) (a : JsObj) : JsObj :=
  if ¬st.params.batch then assocSet a "TableName" (.str st.tableName) else a

/-- The metrics block (Expression.js:328-331).  Only `ReturnConsumedCapacity`
is assigned: line 330, `args.ReturnItemCollectionMetrics || 'SIZE'`, is an
expression statement without an assignment, so no collection-metrics flag is
ever written. -/
def argsMetrics (st : ExprState) (a : JsObj) : JsObj :=
  if st.params.metrics then
    assocSet a "ReturnConsumedCapacity" (.str (orDefault st.params.capacity "TOTAL"))
  else a

/-- Item payload, return mode and update expression (Expression.js:332-341). -/
def argsPayload (st : ExprState) (a : JsObj) : JsObj :=
  if st.op = "put" then
    assocSet (assocSet a "Item" (.obj st.values))
      "ReturnValues" (.str (orDefault st.params.returnMode "NONE"))
  else if st.op = "update" then
    let b := assocSet a "ReturnValues" (.str (orDefault st.params.returnMode "ALL_NEW"))
    if st.updates.length ≠ 0 then
      assocSet b "UpdateExpression"
        (.str (getAction st.params ++ " " ++ String.intercalate ", " st.updates))
    else b
  else a

/-- The literal key map, plural in batch mode (Expression.js:342-348). -/
def argsKeyMap (st : ExprState) (a : JsObj) : JsObj :=
  if st.op = "delete" ∨ st.op = "get" ∨ st.op = "update" then
    if st.params.batch then assocSet a "Keys" (.obj st.key)
    else assocSet a "Key" (.obj st.key)
  else a

/-- Consistency and index name for read operations (Expression.js:349-352). -/
def argsReadOpts (st : ExprState) (a : JsObj) : JsObj :=
  if st.op = "find" ∨ st.op = "get" ∨ st.op = "scan" then
    assocSet (assocSet a "ConsistentRead" (.bool st.params.consistent))
      "IndexName"
      (match st.params.index with
       | some ix => if ix ≠ "" then .str ix else .null
       | none => .null)
  else a

/-- Limit, scan direction and pagination cursor (Expression.js:353-359). -/
def argsPaging (st : ExprState) (a : JsObj) : JsObj :=
  if st.op = "find" ∨ st.op = "scan" then
    let b := assocSet a "Limit"
      (match st.params.limit with
       | some n => if n ≠ 0 then .num n else .undefined
       | none => .undefined)
    let b2 := assocSet b "ScanIndexForward" (.bool !st.params.reverse)
    if st.params.start.isSome then
      assocSet b2 "ExclusiveStartKey" (.obj (st.params.start.getD []))
    else b2
  else a

/-- The conditional property assignments that follow the initial object
literal in `prepare` (Expression.js:325-359), in source order. -/
def extendArgs (st : ExprState) (args0 : JsObj) : JsObj :=
  argsPaging st (argsReadOpts st (argsKeyMap st (argsPayload st
    (argsMetrics st (argsTableName st args0)))))

/-- Translation of the final checks and assembly of `prepare`
(Expression.js:300-324, 360-365): the fallback and dead key guards, the
hook calls, the argument assembly via `baseArgs` / `extendArgs`, and the
pruning of loosely-null entries. -/
def prepare (st : ExprState) : Except String (Option JsObj) :=
  if st.fallback then .ok none
  else if jsObjEqNull st.key ∧ jsLooseNullOpt (assocGet st.values st.hash) ∧ st.op ≠ "scan" then
    .error ("dynamo: Cannot find hash key for " ++ st.op)
  else if (st.op = "get" ∨ st.op = "delete" ∨ st.op = "update") ∧ jsObjEqNull st.key then
    .ok none
  else if st.params.preFormat then .error "ReferenceError: model is not defined"
  else
    let pruned := (extendArgs st (baseArgs st)).filter (fun kv => !jsLooseNull kv.2)
    if st.params.postFormat then .error "ReferenceError: model is not defined"
    else .ok (some pruned)

/-- The full translation pipeline: construct the `Expression` (which parses
the fields) and prepare the request arguments. -/
def translate (model : Model) (op : String) (properties : JsObj)
    (params : Params) : Except String (Option JsObj) :=
  match mkExpression model op properties params with
  | .error e => .error e
  | .ok st => prepare st

/-! Helper definitions used by the theorems below. -/

/-- The state carried by a loop-body outcome. -/
def StepRes.state : StepRes → ExprState
  | .halt s => s
  | .skip s => s
  | .next s => s

/-- The state carried by a loop outcome. -/
def LoopRes.state : LoopRes → ExprState
  | .early s => s
  | .done s => s

/-- Extract the state of a successful construction (with a default for the
error case); used to name concrete constructed states in witnesses. -/
def okStateD (e : Except String ExprState) (d : ExprState) : ExprState :=
  match e with
  | .ok s => s
  | .error _ => d

/-- The projections of the expression state that the post-loop processing of
`parseFields` leaves untouched. -/
def SameData (s t : ExprState) : Prop :=
  t.op = s.op ∧ t.hash = s.hash ∧ t.fieldValues = s.fieldValues

/-- The projections of the expression state that no assembler ever writes. -/
def SameCore (s t : ExprState) : Prop :=
  t.op = s.op ∧ t.hash = s.hash

/-! Concrete fixtures: a minimal schema with an indexed hash field `pk` and
an indexed sort field `sk`, plus variants used by individual claims. -/

/-- Indexed hash field. -/
def fPk : Field := { name := "pk", attr := "pk", isIndexed := true }

/-- Indexed sort field. -/
def fSk : Field := { name := "sk", attr := "sk", isIndexed := true }

/-- A field that is not part of any index. -/
def fX : Field := { name := "x", attr := "x" }

/-- Model with a primary index over hash `pk` and sort `sk`. -/
def mdFind : Model :=
  { fields := [("pk", fPk), ("sk", fSk)],
    indexes := { primary := { hash := "pk", sort := some "sk" } } }

/-- Model whose only field carries the hash attribute but is not marked
indexed, so nothing is ever routed into the literal key map. -/
def mdPlain : Model :=
  { fields := [("pk", { name := "pk", attr := "pk" })],
    indexes := { primary := { hash := "pk" } } }

/-- Model with a single indexed hash field. -/
def mdKeyed : Model :=
  { fields := [("pk", fPk)], indexes := { primary := { hash := "pk" } } }

/-- Model with a named secondary index. -/
def mdSec : Model :=
  { fields := [("pk", fPk)],
    indexes := { primary := { hash := "pk" },
                 secondary := [("gs1", { hash := "gs1pk" })] } }

/-- A scratch constructed state over `mdFind` used to instantiate
state-quantified theorems. -/
def stScratch : ExprState :=
  { model := mdFind, op := "find", properties := [], params := {},
    index := { hash := "pk", sort := some "sk" }, hash := "pk", sort := some "sk" }

/-- The scratch state for a high-level call (`params.high`). -/
def stHigh : ExprState := { stScratch with params := { high := true } }

/-! Claim theorems. -/

/-- C1 counterexample.  The claim says a non-scan operation whose active hash
attribute resolves no value always yields a raised error, never a silent
null.  Here an update names the secondary index `gs1`: `selectIndex` sets
the fallback flag, field parsing is skipped entirely (so the hash attribute
`gs1pk` resolves no value, as the second conjunct shows), and `prepare`
returns null without raising. -/
theorem c1_fallback_swallows_missing_hash :
    translate mdSec "update" [] { index := some "gs1" } = .ok none
    ∧ (mkExpression mdSec "update" [] { index := some "gs1" }).toOption.map
        (fun s => assocGet s.fieldValues s.hash) = some none
    ∧ "update" ≠ "scan" :=
  ⟨rfl, rfl, by decide⟩

/-- C2.  A get whose hash attribute resolved a value through a field that is
not marked indexed assembles no literal key, yet `prepare` returns a request
object with an empty `Key` map instead of the null the claim (and the dead
`key == null` guard in the source) promises. -/
theorem c2_empty_key_still_returns_request :
    translate mdPlain "get" [("pk", .str "a")] {}
      = .ok (some [("TableName", .str "TestTable"), ("Key", .obj []),
                   ("ConsistentRead", .bool false)]) :=
  rfl

/-- C3 counterexample.  With no template and both context objects defining
the logical name `x`, the resolver returns the ambient table context's value
`"c"`, not the operation properties' value `"p"` claimed: the source pushes
`properties` to the end of the context list, so the ambient context is
consulted first. -/
theorem c3_properties_do_not_win :
    template none "find" {} ":" fX [("x", .str "p")] [("x", .str "c")] = .str "c"
    ∧ template none "find" {} ":" fX [("x", .str "p")] [("x", .str "c")] ≠ .str "p" := by
  refine ⟨rfl, fun h => ?_⟩
  rw [show template none "find" {} ":" fX [("x", .str "p")] [("x", .str "c")]
        = .str "c" from rfl] at h
  exact absurd (JsVal.str.inj h) (by decide)

/-- C4 counterexample.  A find whose sort key carries the unsupported
directive `le` completes without any failure: the produced request simply
lacks the sort fragment (its key condition is only the hash equality), while
a name placeholder for `sk` was still allocated. -/
theorem c4_unsupported_directive_ignored :
    translate mdFind "find" [("pk", .str "a"), ("sk", .obj [("le", .num 5)])] {}
      = .ok (some
          [("ExpressionAttributeNames", .obj [("#_0", .str "pk"), ("#_1", .str "sk")]),
           ("ExpressionAttributeValues", .obj [(":_0", .str "a")]),
           ("KeyConditionExpression", .str "#_0 = :_0"),
           ("TableName", .str "TestTable"),
           ("ConsistentRead", .bool false),
           ("ScanIndexForward", .bool true)]) :=
  rfl

/-- C5: key-condition translation.  A begins directive allocates exactly one
name placeholder bound to the field's attribute and one value placeholder
bound to the prefix, inside a begins_with fragment; a between directive
allocates one name placeholder and two value placeholders bound to the two
bounds, inside a between fragment. -/
theorem c5_key_condition_placeholders (f : Field) (x : String) (a b : JsVal)
    (st : ExprState) :
    addKeys f (.obj [("begins", .str x)]) st
      = .ok { st with
          keys := st.keys ++
            ["begins_with(" ++ nameToken st.nindex ++ ", " ++ valueToken st.vindex ++ ")"],
          values := assocSet st.values (valueToken st.vindex) (.str x),
          names := assocSet st.names (nameToken st.nindex) f.attr,
          nindex := st.nindex + 1,
          vindex := st.vindex + 1 }
    ∧ addKeys f (.obj [("between", .arr [a, b])]) st
      = .ok { st with
          keys := st.keys ++
            ["between(" ++ nameToken st.nindex ++ ", " ++ valueToken st.vindex ++ ", "
              ++ valueToken (st.vindex + 1) ++ ")"],
          values := assocSet (assocSet st.values (valueToken st.vindex) a)
            (valueToken (st.vindex + 1)) b,
          names := assocSet st.names (nameToken st.nindex) f.attr,
          nindex := st.nindex + 1,
          vindex := st.vindex + 2 } :=
  ⟨rfl, rfl⟩

/-- C6.  Sanitizing the structured value with a nested null entry under a
field that does not allow nulls keeps the null: in JavaScript
`typeof null == 'object'`, so the entry takes the recursive branch and the
null-dropping test is dead code.  The claim says the entry is dropped. -/
theorem c6_nested_null_survives :
    removeEmptyStrings fX (.obj [("a", .null)]) = .obj [("a", .null)]
    ∧ fX.nulls = false
    ∧ removeEmptyStrings fX (.obj [("a", .null)]) ≠ .obj [] := by
  refine ⟨rfl, rfl, fun h => ?_⟩
  rw [show removeEmptyStrings fX (.obj [("a", .null)])
        = .obj [("a", .null)] from rfl] at h
  exact absurd (JsVal.obj.inj h) (by simp)

/-- C7.  An update carrying `remove: ["x"]` reaches the bulk remove loop,
whose body reads the unbound identifier `key`: the whole translation aborts
with a ReferenceError, so no name placeholder is ever bound to the listed
attribute name and no remove expression is assembled. -/
theorem c7_remove_is_reference_error :
    translate mdKeyed "update" [("pk", .str "a")] { remove := some (.arr [.str "x"]) }
      = .error "ReferenceError: key is not defined" :=
  rfl

/-- C9.  With `metrics` requested, the produced request carries
`ReturnConsumedCapacity` (defaulted to TOTAL) but no
`ReturnItemCollectionMetrics` at all: source line 330 is the expression
statement `args.ReturnItemCollectionMetrics || 'SIZE'`, which assigns
nothing, while the claim requires both reporting flags to be present. -/
theorem c9_collection_metrics_flag_missing :
    translate mdKeyed "put" [("pk", .str "a")] { metrics := true }
      = .ok (some [("TableName", .str "TestTable"),
                   ("ReturnConsumedCapacity", .str "TOTAL"),
                   ("Item", .obj [("pk", .str "a")]),
                   ("ReturnValues", .str "NONE")])
    ∧ assocGet [("TableName", JsVal.str "TestTable"),
                ("ReturnConsumedCapacity", JsVal.str "TOTAL"),
                ("Item", JsVal.obj [("pk", JsVal.str "a")]),
                ("ReturnValues", JsVal.str "NONE")] "ReturnItemCollectionMetrics" = none :=
  ⟨rfl, rfl⟩

/-- C4 amended: a key-condition directive other than begins/begins_with/
between is silently ignored — no error is raised and no key fragment is
emitted (the request will simply lack the sort fragment) — while one name
placeholder is still allocated and bound to the field's attribute. -/
theorem c4_amended_directive_silently_dropped (f : Field) (action : String)
    (v : JsVal) (rest : List (String × JsVal)) (st : ExprState)
    (h1 : action ≠ "begins") (h2 : action ≠ "begins_with") (h3 : action ≠ "between") :
    addKeys f (.obj ((action, v) :: rest)) st
      = .ok { st with names := assocSet st.names (nameToken st.nindex) f.attr,
                      nindex := st.nindex + 1 } := by
  simp [addKeys, h1, h2, h3]

/-- C4 witness: the amended statement at the concrete directive `le`. -/
theorem c4_amended_directive_silently_dropped_witness :
    addKeys fSk (.obj [("le", .num 5)]) stScratch
      = .ok { stScratch with
          names := assocSet stScratch.names (nameToken stScratch.nindex) fSk.attr,
          nindex := stScratch.nindex + 1 } :=
  c4_amended_directive_silently_dropped fSk "le" (.num 5) [] stScratch
    (by decide) (by decide) (by decide)

/-- C8: once the fallback flag is true, `prepare` returns null; and a loop
iteration that ends with the flag set short-circuits the field loop, so the
remaining fields are never processed (the loop result is the same whatever
fields follow). -/
theorem c8_fallback_aborts_translation :
    (∀ st : ExprState, st.fallback = true → prepare st = .ok none)
    ∧ (∀ (nf : String × Field) (rest : List (String × Field)) (st s : ExprState),
        parseLoop [nf] st = .ok (.early s) → parseLoop (nf :: rest) st = .ok (.early s)) := by
  constructor
  · intro st h
    simp [prepare, h]
  · rintro ⟨n, f⟩ rest st s h
    simp only [parseLoop] at h ⊢
    cases hpf : parseField f st with
    | error e => rw [hpf] at h; simp at h
    | ok r =>
      rw [hpf] at h
      cases r with
      | halt s1 => exact h
      | skip s1 => simp [parseLoop] at h
      | next s1 =>
        by_cases hf : s1.fallback = true
        · simpa [hf] using h
        · simp [parseLoop, hf] at h

/-- C8 witness: the first part at a state with the flag set; the second at a
concrete high-level call whose sort field resolves nothing, showing the
remaining field `pk` is never processed. -/
theorem c8_fallback_aborts_translation_witness :
    prepare { stScratch with fallback := true } = .ok none
    ∧ parseLoop [("sk", fSk), ("pk", fPk)] stHigh
        = .ok (.early { stHigh with fallback := true }) :=
  ⟨c8_fallback_aborts_translation.1 { stScratch with fallback := true } rfl,
   c8_fallback_aborts_translation.2 ("sk", fSk) [("pk", fPk)] stHigh
     { stHigh with fallback := true } rfl⟩

/-- C3 amended: the resolver's lookup order is ambient table context first,
operation properties last — for a field without a template, a name defined
in the ambient context is returned regardless of the operation properties;
template substitution likewise draws from the ambient context in preference
to the operation properties (second conjunct, on an instance where both
define the token). -/
theorem c3_amended_context_precedence :
    (∀ (sort : Option String) (op : String) (params : Params) (delim : String)
       (f : Field) (props ctx : JsObj) (v : JsVal),
        f.value = none → assocGet ctx f.name = some v → v ≠ .undefined →
        template sort op params delim f props ctx = v)
    ∧ template none "find" {} ":"
        { name := "x", attr := "x", value := some "$\x7bx\x7d" }
        [("x", .str "p")] [("x", .str "c")] = .str "c" := by
  refine ⟨?_, rfl⟩
  intro sort op params delim f props ctx v hval hget hv
  simp only [template, hval, List.find?]
  rw [hget]
  cases v with
  | undefined => exact absurd rfl hv
  | null => simp [jsDefinedOpt, hget]
  | bool b => simp [jsDefinedOpt, hget]
  | num n => simp [jsDefinedOpt, hget]
  | str s => simp [jsDefinedOpt, hget]
  | arr xs => simp [jsDefinedOpt, hget]
  | obj entries => simp [jsDefinedOpt, hget]

/-- C3 witness: the amended lookup rule at concrete contexts where both
define the name. -/
theorem c3_amended_context_precedence_witness :
    template none "find" {} ":" fX [("x", .str "p")] [("x", .str "c")] = .str "c" :=
  c3_amended_context_precedence.1 none "find" {} ":" fX
    [("x", .str "p")] [("x", .str "c")] (.str "c") rfl rfl (by simp)

/-- Setting one key leaves lookups of a different key unchanged. -/
theorem assocGet_assocSet_ne {α : Type} (l : List (String × α)) (k k' : String)
    (v : α) (h : k ≠ k') : assocGet (assocSet l k v) k' = assocGet l k' := by
  induction l with
  | nil => simp [assocSet, assocGet, h]
  | cons hd tl ih =>
    obtain ⟨a, w⟩ := hd
    by_cases h1 : a = k
    · subst h1
      simp [assocSet, assocGet, h]
    · simp [assocSet, assocGet, h1, ih]

/-- An entry of a set object is an original entry or carries the written
key. -/
theorem mem_assocSet {α : Type} (l : List (String × α)) (k : String) (v : α)
    (kv : String × α) (h : kv ∈ assocSet l k v) : kv ∈ l ∨ kv.1 = k := by
  induction l with
  | nil =>
    simp [assocSet] at h
    subst h
    simp
  | cons hd tl ih =>
    obtain ⟨a, w⟩ := hd
    by_cases h1 : a = k
    · subst h1
      simp [assocSet] at h
      rcases h with h | h
      · right; rw [h]
      · left; simp [h]
    · simp [assocSet, h1] at h
      rcases h with h | h
      · left; simp [h]
      · rcases ih h with h2 | h2
        · left; simp [h2]
        · right; exact h2

/-- A looked-up entry with a non-null value survives the loosely-null
pruning with the same lookup result. -/
theorem assocGet_filter_of_notnull (l : JsObj) (k : String) (v : JsVal)
    (hget : assocGet l k = some v) (hv : jsLooseNull v = false) :
    assocGet (l.filter (fun kv => !jsLooseNull kv.2)) k = some v := by
  induction l with
  | nil => simp [assocGet] at hget
  | cons hd tl ih =>
    obtain ⟨a, w⟩ := hd
    by_cases h1 : a = k
    · subst h1
      simp [assocGet] at hget
      subst hget
      simp [List.filter, hv, assocGet]
    · simp [assocGet, h1] at hget
      by_cases h2 : jsLooseNull w = true
      · simp [List.filter, h2, ih hget]
      · simp [List.filter, h2, assocGet, h1, ih hget]

/-- When every entry under a key is loosely null, the key is absent after
pruning. -/
theorem assocGet_filter_of_allnull (l : JsObj) (k : String)
    (h : ∀ v, (k, v) ∈ l → jsLooseNull v = true) :
    assocGet (l.filter (fun kv => !jsLooseNull kv.2)) k = none := by
  induction l with
  | nil => simp [assocGet]
  | cons hd tl ih =>
    obtain ⟨a, w⟩ := hd
    have htl : ∀ v, (k, v) ∈ tl → jsLooseNull v = true :=
      fun v hv => h v (List.mem_cons_of_mem _ hv)
    by_cases h1 : a = k
    · subst h1
      have hw : jsLooseNull w = true := h w (by simp)
      simp [List.filter, hw, ih htl]
    · by_cases h2 : jsLooseNull w = true
      · simp [List.filter, h2, ih htl]
      · simp [List.filter, h2, assocGet, h1, ih htl]

/-! Per-step lookup and membership lemmas for the `extendArgs` chain. -/

/-- Lookup through the table-name step. -/
theorem argsTableName_get (st : ExprState) (a : JsObj) (k : String)
    (h : "TableName" ≠ k) : assocGet (argsTableName st a) k = assocGet a k := by
  unfold argsTableName
  split_ifs <;> simp [assocGet_assocSet_ne, h]

/-- Lookup through the metrics step. -/
theorem argsMetrics_get (st : ExprState) (a : JsObj) (k : String)
    (h : "ReturnConsumedCapacity" ≠ k) :
    assocGet (argsMetrics st a) k = assocGet a k := by
  unfold argsMetrics
  split_ifs <;> simp [assocGet_assocSet_ne, h]

/-- Lookup through the payload step. -/
theorem argsPayload_get (st : ExprState) (a : JsObj) (k : String)
    (h1 : "Item" ≠ k) (h2 : "ReturnValues" ≠ k) (h3 : "UpdateExpression" ≠ k) :
    assocGet (argsPayload st a) k = assocGet a k := by
  unfold argsPayload
  split_ifs <;> simp [assocGet_assocSet_ne, h1, h2, h3]

/-- Lookup through the key-map step. -/
theorem argsKeyMap_get (st : ExprState) (a : JsObj) (k : String)
    (h1 : "Keys" ≠ k) (h2 : "Key" ≠ k) :
    assocGet (argsKeyMap st a) k = assocGet a k := by
  unfold argsKeyMap
  split_ifs <;> simp [assocGet_assocSet_ne, h1, h2]

/-- Lookup through the read-options step. -/
theorem argsReadOpts_get (st : ExprState) (a : JsObj) (k : String)
    (h1 : "ConsistentRead" ≠ k) (h2 : "IndexName" ≠ k) :
    assocGet (argsReadOpts st a) k = assocGet a k := by
  unfold argsReadOpts
  split_ifs <;> simp [assocGet_assocSet_ne, h1, h2]

/-- Lookup through the pagination step. -/
theorem argsPaging_get (st : ExprState) (a : JsObj) (k : String)
    (h1 : "Limit" ≠ k) (h2 : "ScanIndexForward" ≠ k) (h3 : "ExclusiveStartKey" ≠ k) :
    assocGet (argsPaging st a) k = assocGet a k := by
  unfold argsPaging
  split_ifs <;> simp [assocGet_assocSet_ne, h1, h2, h3]

/-- The conditional assignments of `extendArgs` never write the six keys of
the initial object literal, so their lookups pass through. -/
theorem extendArgs_get (st : ExprState) (a : JsObj) (k : String)
    (h1 : "TableName" ≠ k) (h2 : "ReturnConsumedCapacity" ≠ k)
    (h3 : "Item" ≠ k) (h4 : "ReturnValues" ≠ k) (h5 : "UpdateExpression" ≠ k)
    (h6 : "Keys" ≠ k) (h7 : "Key" ≠ k) (h8 : "ConsistentRead" ≠ k)
    (h9 : "IndexName" ≠ k) (h10 : "Limit" ≠ k) (h11 : "ScanIndexForward" ≠ k)
    (h12 : "ExclusiveStartKey" ≠ k) :
    assocGet (extendArgs st a) k = assocGet a k := by
  unfold extendArgs
  rw [argsPaging_get st _ k h10 h11 h12, argsReadOpts_get st _ k h8 h9,
    argsKeyMap_get st _ k h6 h7, argsPayload_get st _ k h3 h4 h5,
    argsMetrics_get st _ k h2, argsTableName_get st _ k h1]

/-- Membership through the table-name step. -/
theorem argsTableName_mem (st : ExprState) (a : JsObj) (kv : String × JsVal)
    (h : kv ∈ argsTableName st a) : kv ∈ a ∨ kv.1 = "TableName" := by
  unfold argsTableName at h
  split_ifs at h
  all_goals first
    | exact Or.inl h
    | exact mem_assocSet _ _ _ _ h

/-- Membership through the metrics step. -/
theorem argsMetrics_mem (st : ExprState) (a : JsObj) (kv : String × JsVal)
    (h : kv ∈ argsMetrics st a) : kv ∈ a ∨ kv.1 = "ReturnConsumedCapacity" := by
  unfold argsMetrics at h
  split_ifs at h
  · exact mem_assocSet _ _ _ _ h
  · exact Or.inl h

/-- Membership through the payload step. -/
theorem argsPayload_mem (st : ExprState) (a : JsObj) (kv : String × JsVal)
    (h : kv ∈ argsPayload st a) :
    kv ∈ a ∨ kv.1 = "Item" ∨ kv.1 = "ReturnValues" ∨ kv.1 = "UpdateExpression" := by
  unfold argsPayload at h
  split_ifs at h
  · rcases mem_assocSet _ _ _ _ h with h' | h'
    · rcases mem_assocSet _ _ _ _ h' with h2 | h2
      · exact Or.inl h2
      · exact Or.inr (Or.inl h2)
    · exact Or.inr (Or.inr (Or.inl h'))
  · rcases mem_assocSet _ _ _ _ h with h' | h'
    · rcases mem_assocSet _ _ _ _ h' with h2 | h2
      · exact Or.inl h2
      · exact Or.inr (Or.inr (Or.inl h2))
    · exact Or.inr (Or.inr (Or.inr h'))
  · rcases mem_assocSet _ _ _ _ h with h' | h'
    · exact Or.inl h'
    · exact Or.inr (Or.inr (Or.inl h'))
  · exact Or.inl h

/-- Membership through the key-map step. -/
theorem argsKeyMap_mem (st : ExprState) (a : JsObj) (kv : String × JsVal)
    (h : kv ∈ argsKeyMap st a) : kv ∈ a ∨ kv.1 = "Keys" ∨ kv.1 = "Key" := by
  unfold argsKeyMap at h
  split_ifs at h
  · rcases mem_assocSet _ _ _ _ h with h' | h'
    · exact Or.inl h'
    · exact Or.inr (Or.inl h')
  · rcases mem_assocSet _ _ _ _ h with h' | h'
    · exact Or.inl h'
    · exact Or.inr (Or.inr h')
  · exact Or.inl h

/-- Membership through the read-options step. -/
theorem argsReadOpts_mem (st : ExprState) (a : JsObj) (kv : String × JsVal)
    (h : kv ∈ argsReadOpts st a) :
    kv ∈ a ∨ kv.1 = "ConsistentRead" ∨ kv.1 = "IndexName" := by
  unfold argsReadOpts at h
  split_ifs at h
  · rcases mem_assocSet _ _ _ _ h with h' | h'
    · rcases mem_assocSet _ _ _ _ h' with h2 | h2
      · exact Or.inl h2
      · exact Or.inr (Or.inl h2)
    · exact Or.inr (Or.inr h')
  · exact Or.inl h

/-- Membership through the pagination step. -/
theorem argsPaging_mem (st : ExprState) (a : JsObj) (kv : String × JsVal)
    (h : kv ∈ argsPaging st a) :
    kv ∈ a ∨ kv.1 = "Limit" ∨ kv.1 = "ScanIndexForward" ∨ kv.1 = "ExclusiveStartKey" := by
  unfold argsPaging at h
  split_ifs at h
  · rcases mem_assocSet _ _ _ _ h with h' | h'
    · rcases mem_assocSet _ _ _ _ h' with h2 | h2
      · rcases mem_assocSet _ _ _ _ h2 with h3 | h3
        · exact Or.inl h3
        · exact Or.inr (Or.inl h3)
      · exact Or.inr (Or.inr (Or.inl h2))
    · exact Or.inr (Or.inr (Or.inr h'))
  · rcases mem_assocSet _ _ _ _ h with h' | h'
    · rcases mem_assocSet _ _ _ _ h' with h2 | h2
      · exact Or.inl h2
      · exact Or.inr (Or.inl h2)
    · exact Or.inr (Or.inr (Or.inl h'))
  · exact Or.inl h

/-- Every entry of `extendArgs` is an original entry or carries one of the
twelve conditionally assigned keys. -/
theorem extendArgs_mem (st : ExprState) (a : JsObj) (kv : String × JsVal)
    (h : kv ∈ extendArgs st a) :
    kv ∈ a ∨ kv.1 ∈ ["TableName", "ReturnConsumedCapacity", "Item", "ReturnValues",
      "UpdateExpression", "Keys", "Key", "ConsistentRead", "IndexName", "Limit",
      "ScanIndexForward", "ExclusiveStartKey"] := by
  unfold extendArgs at h
  rcases argsPaging_mem _ _ _ h with h | h | h | h
  rotate_left
  · right; simp [h]
  · right; simp [h]
  · right; simp [h]
  rcases argsReadOpts_mem _ _ _ h with h | h | h
  rotate_left
  · right; simp [h]
  · right; simp [h]
  rcases argsKeyMap_mem _ _ _ h with h | h | h
  rotate_left
  · right; simp [h]
  · right; simp [h]
  rcases argsPayload_mem _ _ _ h with h | h | h | h
  rotate_left
  · right; simp [h]
  · right; simp [h]
  · right; simp [h]
  rcases argsMetrics_mem _ _ _ h with h | h
  rotate_left
  · right; simp [h]
  rcases argsTableName_mem _ _ _ h with h | h
  · exact Or.inl h
  · right; simp [h]

/-- The only entry of the initial object literal under the
ExpressionAttributeValues key is the gated value map. -/
theorem mem_baseArgs_eav (st : ExprState) (v : JsVal)
    (h : ("ExpressionAttributeValues", v) ∈ baseArgs st) :
    v = if st.names.length > 0 then JsVal.obj st.values else JsVal.undefined := by
  simp [baseArgs] at h
  exact h

/-- C10: a produced request includes the ExpressionAttributeValues map
exactly when the name-placeholder map is non-empty — the gate counts name
placeholders, not value placeholders.  The second conjunct exhibits a scan
whose where clause allocates only a value placeholder: the filter expression
references the value token while the value map is omitted from the
request. -/
theorem c10_values_map_gated_on_names :
    (∀ (st : ExprState) (args : JsObj), prepare st = .ok (some args) →
      ((assocGet args "ExpressionAttributeValues").isSome ↔ st.names ≠ []))
    ∧ translate mdKeyed "scan" [] { whereClause := some "size(x) > \x7b5\x7d" }
      = .ok (some [("FilterExpression", .str "size(x) > :_0"),
                   ("TableName", .str "TestTable"),
                   ("ConsistentRead", .bool false),
                   ("ScanIndexForward", .bool true)]) := by
  refine ⟨?_, rfl⟩
  intro st args h
  simp only [prepare] at h
  split_ifs at h <;> simp only [Except.ok.injEq, Option.some.injEq] at h
  · exact absurd h (by simp)
  · exact absurd h (by simp)
  subst h
  by_cases hn : st.names = []
  · have hlen : ¬st.names.length > 0 := by simp [hn]
    have hall : ∀ v, ("ExpressionAttributeValues", v) ∈ extendArgs st (baseArgs st) →
        jsLooseNull v = true := by
      intro v hv
      rcases extendArgs_mem st _ _ hv with hmem | hk
      · have hv2 := mem_baseArgs_eav st v hmem
        rw [if_neg hlen] at hv2
        subst hv2
        rfl
      · simp at hk
    have hnone := assocGet_filter_of_allnull (extendArgs st (baseArgs st))
      "ExpressionAttributeValues" hall
    simp [hnone, hn]
  · have hlen : st.names.length > 0 := List.length_pos.mpr hn
    have hbase : assocGet (baseArgs st) "ExpressionAttributeValues"
        = some (JsVal.obj st.values) := by
      simp [baseArgs, assocGet, hlen]
    have hchain : assocGet (extendArgs st (baseArgs st)) "ExpressionAttributeValues"
        = some (JsVal.obj st.values) := by
      rw [extendArgs_get st _ _ (by decide) (by decide) (by decide) (by decide)
        (by decide) (by decide) (by decide) (by decide) (by decide) (by decide)
        (by decide) (by decide)]
      exact hbase
    have hsome := assocGet_filter_of_notnull (extendArgs st (baseArgs st))
      "ExpressionAttributeValues" (JsVal.obj st.values) hchain rfl
    simp [hsome, hn]

/-- C10 witness: the gating rule applied to the concrete scan state of the
second conjunct (its name map is empty, and the value map is absent from
the produced request). -/
theorem c10_values_map_gated_on_names_witness :
    (assocGet [("FilterExpression", JsVal.str "size(x) > :_0"),
               ("TableName", JsVal.str "TestTable"),
               ("ConsistentRead", JsVal.bool false),
               ("ScanIndexForward", JsVal.bool true)] "ExpressionAttributeValues").isSome
    ↔ (okStateD (mkExpression mdKeyed "scan" []
        { whereClause := some "size(x) > \x7b5\x7d" }) stScratch).names ≠ [] :=
  c10_values_map_gated_on_names.1
    (okStateD (mkExpression mdKeyed "scan" []
      { whereClause := some "size(x) > \x7b5\x7d" }) stScratch)
    [("FilterExpression", JsVal.str "size(x) > :_0"),
     ("TableName", JsVal.str "TestTable"),
     ("ConsistentRead", JsVal.bool false),
     ("ScanIndexForward", JsVal.bool true)] rfl

/-! Preservation lemmas for the C1 analysis: the assemblers never change the
operation or hash attribute, and the post-loop processing of `parseFields`
never changes the resolved attribute map. -/

/-- `makeConditions` only touches the placeholder maps and counters. -/
theorem makeConditions_data (st : ExprState) (w : String) :
    SameData st (makeConditions st w).2 :=
  ⟨rfl, rfl, rfl⟩

/-- `addFilters` only touches filters, placeholder maps and counters. -/
theorem addFilters_data (st : ExprState) : SameData st (addFilters st) := by
  unfold addFilters
  split_ifs
  · exact ⟨rfl, rfl, rfl⟩
  · exact ⟨rfl, rfl, rfl⟩

/-- `condExists` only appends conditions. -/
theorem condExists_data (st : ExprState) : SameData st (condExists st) := by
  unfold condExists
  split_ifs <;> exact ⟨rfl, rfl, rfl⟩

/-- `condType` only appends conditions. -/
theorem condType_data (st : ExprState) : SameData st (condType st) := by
  unfold condType
  split
  · split_ifs <;> exact ⟨rfl, rfl, rfl⟩
  · exact ⟨rfl, rfl, rfl⟩

/-- `condWhere` only appends conditions and placeholders. -/
theorem condWhere_data (op : String) (st : ExprState) :
    SameData st (condWhere op st) := by
  unfold condWhere
  split_ifs
  · exact ⟨rfl, rfl, rfl⟩
  · exact ⟨rfl, rfl, rfl⟩

/-- `addUpdatePairs` only touches updates, placeholder maps and counters. -/
theorem addUpdatePairs_data (l : List (String × JsVal)) :
    ∀ st : ExprState, SameData st (addUpdatePairs l st) := by
  induction l with
  | nil => intro st; exact ⟨rfl, rfl, rfl⟩
  | cons hd tl ih =>
    intro st
    obtain ⟨k, v⟩ := hd
    exact (ih _ : SameData _ _)

/-- A successful `addUpdates` preserves op, hash and resolved map. -/
theorem addUpdates_ok_data (st t : ExprState) (h : addUpdates st = .ok t) :
    SameData st t := by
  simp only [addUpdates] at h
  split_ifs at h
  · injection h with h2
    subst h2
    exact addUpdatePairs_data _ _
  · rcases hr : (match st.params.remove.getD .undefined with
      | JsVal.arr xs => xs
      | v => [v]) with _ | ⟨x, xs⟩
    · rw [hr] at h
      injection h with h2
      subst h2
      exact ⟨rfl, rfl, rfl⟩
    · rw [hr] at h
      cases h
  · injection h with h2
    subst h2
    exact addUpdatePairs_data _ _
  · injection h with h2
    subst h2
    exact ⟨rfl, rfl, rfl⟩

/-- A successful `addConditions` preserves op, hash and resolved map. -/
theorem addConditions_ok_data (op : String) (st t : ExprState)
    (h : addConditions op st = .ok t) : SameData st t := by
  simp only [addConditions] at h
  have h12 : SameData st (condType (condExists st)) := by
    have ha := condExists_data st
    have hb := condType_data (condExists st)
    exact ⟨hb.1.trans ha.1, hb.2.1.trans ha.2.1, hb.2.2.trans ha.2.2⟩
  split_ifs at h
  · cases hu : addUpdates (condType (condExists st)) with
    | error e => rw [hu] at h; cases h
    | ok s3 =>
      rw [hu] at h
      injection h with h2
      subst h2
      have hc := addUpdates_ok_data _ _ hu
      have hd := condWhere_data op s3
      exact ⟨hd.1.trans (hc.1.trans h12.1), hd.2.1.trans (hc.2.1.trans h12.2.1),
        hd.2.2.trans (hc.2.2.trans h12.2.2)⟩
  · injection h with h2
    subst h2
    have hd := condWhere_data op (condType (condExists st))
    exact ⟨hd.1.trans h12.1, hd.2.1.trans h12.2.1, hd.2.2.trans h12.2.2⟩

/-- Unpack a `mapNext` success. -/
theorem mapNext_ok (e : Except String ExprState) (r : StepRes)
    (h : mapNext e = .ok r) : ∃ s, e = .ok s ∧ r = .next s := by
  cases e with
  | error err => simp [mapNext] at h
  | ok s =>
    injection h with h2
    exact ⟨s, rfl, h2.symm⟩

/-- A successful `addKeys` preserves op and hash. -/
theorem addKeys_ok_core (f : Field) (v : JsVal) (st t : ExprState)
    (h : addKeys f v st = .ok t) : SameCore st t := by
  cases v <;> simp only [addKeys] at h
  case null => cases h
  case obj entries =>
    rcases entries with _ | ⟨⟨action, vars⟩, rest⟩
    · simp at h
    · simp only [List.head?] at h
      split_ifs at h <;> (injection h with h2; subst h2; exact ⟨rfl, rfl⟩)
  case arr elems =>
    rcases elems with _ | ⟨x, rest⟩
    · simp at h
    · simp only [List.head?, Option.map] at h
      split_ifs at h <;> (injection h with h2; subst h2; exact ⟨rfl, rfl⟩)
  all_goals (injection h with h2; subst h2; exact ⟨rfl, rfl⟩)

/-- `addKey`, `addFilter` and `addUpdate` preserve op and hash. -/
theorem addPayload_core (f : Field) (v : JsVal) (st : ExprState) :
    SameCore st (addPayload f v st) := by
  unfold addPayload addUpdate
  split_ifs <;> exact ⟨rfl, rfl⟩

/-- A successful `addRoute` preserves op and hash. -/
theorem addRoute_ok_core (f : Field) (v : JsVal) (st t : ExprState)
    (h : addRoute f v st = .ok t) : SameCore st t := by
  simp only [addRoute] at h
  split_ifs at h
  · exact addKeys_ok_core f v st t h
  all_goals (injection h with h2; subst h2; exact ⟨rfl, rfl⟩)

/-- A successful `add` preserves op and hash. -/
theorem add_ok_core (f : Field) (v : JsVal) (st t : ExprState)
    (h : add f v st = .ok t) : SameCore st t := by
  simp only [add] at h
  cases hr : addRoute f v st with
  | error e => rw [hr] at h; cases h
  | ok st1 =>
    rw [hr] at h
    injection h with h2
    subst h2
    have h1 := addRoute_ok_core f v st st1 hr
    have h2 := addPayload_core f v st1
    exact ⟨h2.1.trans h1.1, h2.2.trans h1.2⟩

/-- A successful loop-body step preserves op and hash. -/
theorem parseField_ok_core (f : Field) (st : ExprState) (r : StepRes)
    (h : parseField f st = .ok r) : SameCore st r.state := by
  simp only [parseField] at h
  split_ifs at h
  all_goals first
    | (obtain ⟨s, ha, hr⟩ := mapNext_ok _ _ h
       subst hr
       have hb := add_ok_core _ _ _ _ ha
       exact ⟨hb.1, hb.2⟩)
    | (injection h with h2
       subst h2
       exact ⟨rfl, rfl⟩)

/-- A halt step carries the fallback flag. -/
theorem parseField_halt_fb (f : Field) (st s : ExprState)
    (h : parseField f st = .ok (.halt s)) : s.fallback = true := by
  simp only [parseField] at h
  split_ifs at h
  all_goals first
    | (obtain ⟨s2, _, hr⟩ := mapNext_ok _ _ h; cases hr)
    | (injection h with h2; injection h2 with h3; rw [← h3])
    | (injection h with h2; cases h2)

/-- A successful field loop preserves op and hash. -/
theorem parseLoop_ok_core (fs : List (String × Field)) :
    ∀ (st : ExprState) (r : LoopRes), parseLoop fs st = .ok r → SameCore st r.state := by
  induction fs with
  | nil =>
    intro st r h
    injection h with h2
    subst h2
    exact ⟨rfl, rfl⟩
  | cons hd tl ih =>
    intro st r h
    obtain ⟨n, f⟩ := hd
    simp only [parseLoop] at h
    cases hpf : parseField f st with
    | error e => rw [hpf] at h; cases h
    | ok sr =>
      rw [hpf] at h
      have hcore := parseField_ok_core f st sr hpf
      cases sr with
      | halt s1 =>
        injection h with h2
        subst h2
        exact hcore
      | skip s1 =>
        have h2 := ih s1 r h
        exact ⟨h2.1.trans hcore.1, h2.2.trans hcore.2⟩
      | next s1 =>
        by_cases hf : s1.fallback = true
        · simp only [hf, if_true] at h
          injection h with h2
          subst h2
          exact hcore
        · simp [hf] at h
          have h2 := ih s1 r h
          exact ⟨h2.1.trans hcore.1, h2.2.trans hcore.2⟩

/-- An early loop exit always carries the fallback flag: the only returns
out of the loop are the high-level sort fallback and the post-add fallback
check, both of which require the flag. -/
theorem parseLoop_early_fb (fs : List (String × Field)) :
    ∀ (st s : ExprState), parseLoop fs st = .ok (.early s) → s.fallback = true := by
  induction fs with
  | nil =>
    intro st s h
    injection h with h2
    cases h2
  | cons hd tl ih =>
    intro st s h
    obtain ⟨n, f⟩ := hd
    simp only [parseLoop] at h
    cases hpf : parseField f st with
    | error e => rw [hpf] at h; cases h
    | ok sr =>
      rw [hpf] at h
      cases sr with
      | halt s1 =>
        injection h with h2
        injection h2 with h3
        rw [← h3]
        exact parseField_halt_fb f st s1 hpf
      | skip s1 => exact ih s1 s h
      | next s1 =>
        by_cases hf : s1.fallback = true
        · simp only [hf, if_true] at h
          injection h with h2
          injection h2 with h3
          rw [← h3]
          exact hf
        · simp [hf] at h
          exact ih s1 s h

/-- When `parseFields` succeeds without the fallback flag on a non-scan
operation, the active index's hash attribute holds a non-null resolved
value: the only path past the loop runs the `Empty primary hash key` check,
and the processing after it never touches the resolved attribute map. -/
theorem parseFields_hash_resolved (st0 st : ExprState)
    (hop : st0.op ≠ "scan") (h : parseFields st0 = .ok st)
    (hfb : st.fallback = false) :
    jsLooseNullOpt (assocGet st.fieldValues st.hash) = false := by
  simp only [parseFields] at h
  cases hl : parseLoop st0.model.fields st0 with
  | error e => rw [hl] at h; cases h
  | ok r =>
    rw [hl] at h
    cases r with
    | early s =>
      injection h with h2
      subst h2
      exact absurd (parseLoop_early_fb _ _ _ hl) (by simp [hfb])
    | done s =>
      dsimp only at h
      have hcore := parseLoop_ok_core _ _ _ hl
      have hcore1 : s.op = st0.op := hcore.1
      have hsop : s.op ≠ "scan" := by rw [hcore1]; exact hop
      by_cases hnull : jsLooseNullOpt (assocGet s.fieldValues s.hash) = true
      · rw [if_pos ⟨hsop, hnull⟩] at h
        cases h
      · rw [if_neg (fun hand => hnull hand.2)] at h
        have hnull2 : jsLooseNullOpt (assocGet s.fieldValues s.hash) = false := by
          simpa using hnull
      -- step2 analysis: conditions, filters or neither, then the scan extras
        by_cases hc : s.op = "delete" ∨ s.op = "put" ∨ s.op = "update"
        · rw [if_pos hc] at h
          cases hac : addConditions s.op s with
          | error e => rw [hac] at h; cases h
          | ok s2 =>
            rw [hac] at h
            dsimp only at h
            have hd := addConditions_ok_data _ _ _ hac
            have hd1 : s2.op = s.op := hd.1
            have hdfv : s2.fieldValues = s.fieldValues := hd.2.2
            have hdh : s2.hash = s.hash := hd.2.1
            have hs2op : ¬s2.op = "scan" := by rw [hd1]; exact hsop
            rw [if_neg hs2op] at h
            injection h with h2
            subst h2
            rw [hdfv, hdh]
            exact hnull2
        · rw [if_neg hc] at h
          by_cases hf : s.op = "find" ∨ s.op = "scan"
          · rw [if_pos hf] at h
            dsimp only at h
            have hd := addFilters_data s
            have hd1 : (addFilters s).op = s.op := hd.1
            have hdfv : (addFilters s).fieldValues = s.fieldValues := hd.2.2
            have hdh : (addFilters s).hash = s.hash := hd.2.1
            have hs2op : ¬(addFilters s).op = "scan" := by rw [hd1]; exact hsop
            rw [if_neg hs2op] at h
            injection h with h2
            subst h2
            rw [hdfv, hdh]
            exact hnull2
          · rw [if_neg hf] at h
            dsimp only at h
            rw [if_neg hsop] at h
            injection h with h2
            subst h2
            exact hnull2

/-- C1 amended: on a non-scan operation, when construction succeeds without
the fallback flag, the active index's hash attribute always holds a
non-null resolved value — equivalently, a missing hash value makes the
construction raise (the reported `Empty primary hash key` failure) or take
the silent fallback path; it never passes through silently without the
flag. -/
theorem c1_missing_hash_raises_unless_fallback (model : Model) (op : String)
    (properties : JsObj) (params : Params) (st : ExprState)
    (hop : op ≠ "scan")
    (h : mkExpression model op properties params = .ok st)
    (hfb : st.fallback = false) :
    jsLooseNullOpt (assocGet st.fieldValues st.hash) = false := by
  simp only [mkExpression] at h
  rcases hsel : selectIndex model.indexes op params with ⟨oix, fb⟩
  rw [hsel] at h
  cases oix with
  | none => cases h
  | some ix =>
    dsimp only at h
    by_cases hb : fb = true
    · rw [if_pos hb] at h
      injection h with h2
      subst h2
      simp [hb] at hfb
    · rw [if_neg hb] at h
      exact parseFields_hash_resolved _ _ hop h hfb

/-- C1 witness: the amended statement at a concrete put whose hash field
resolves. -/
theorem c1_missing_hash_raises_unless_fallback_witness :
    jsLooseNullOpt (assocGet
      (okStateD (mkExpression mdKeyed "put" [("pk", .str "a")] {}) stScratch).fieldValues
      (okStateD (mkExpression mdKeyed "put" [("pk", .str "a")] {}) stScratch).hash) = false :=
  c1_missing_hash_raises_unless_fallback mdKeyed "put" [("pk", .str "a")] {}
    (okStateD (mkExpression mdKeyed "put" [("pk", .str "a")] {}) stScratch)
    (by decide) rfl rfl

end OneTable
